import Mathlib

/-!
Verification of the .NET Sphinx domain core (sphinxcontrib/dotnetdomain.py).

The Python source is shallowly embedded below.  Pure functions become Lean
functions; the mutable bits of build state (the `dn:prefix` entry of
`env.temp_data`, the `objects` registry in `env.domaindata['dn']`, the
document id table) are threaded explicitly as values.  Code that can raise
a Python exception is modelled with `Except String`, the error string
naming the exception class.  Strings are processed over `List Char`; the
regular expression of `DotNetSignature.from_string` is embedded as the
deterministic function it computes (see `reMatch`), restricted to ASCII
word characters as in the claims under study.
-/

/-- Python whitespace, as used by `str.strip` and the regex class `\s`
(ASCII fragment). -/
def isPySpace (c : Char) : Bool :=
  c = ' ' || c = '\t' || c = '\n' || c = '\r' || c = '\x0b' || c = '\x0c'

/-- Python `str.strip()`: drop leading and trailing whitespace. -/
def pyStrip (s : String) : String :=
  String.mk (((s.toList.dropWhile isPySpace).reverse.dropWhile isPySpace).reverse)

/-- Characters matched by the regex class `[\w\_\-]` (ASCII fragment of
`\w`, plus the hyphen). -/
def isWordChar (c : Char) : Bool :=
  c.isAlphanum || c = '_' || c = '-'

/-- Characters matched by the regex class `[\w\_\-\.]`: word characters
and the dot. -/
def isPfxChar (c : Char) : Bool :=
  isWordChar c || c = '.'

/-- Parsed representation of one signature: the class `DotNetSignature`.
The Python attribute `prefix` is called `pfx` here (the original
identifier is reserved in this development); `member` and `arguments`
keep their names.  `arguments = none` models Python `None`. -/
structure DotNetSignature where
  pfx : Option String
  member : String
  arguments : Option (List String)
deriving Repr, DecidableEq, BEq

/-- One step of `re.split(r'\,\s+', s)` as a character-driven state
machine.  `skip` is true while consuming the `\s+` run of a separator
just matched; `pending` is true when the previous character was a `,`
whose classification (separator comma or literal comma) depends on the
next character; `curr` is the current fragment, reversed. -/
def splitRun : List Char → Bool → Bool → List Char → List (List Char)
  | [], _, pending, curr =>
      [(if pending then ',' :: curr else curr).reverse]
  | c :: rest, true, _, _ =>
      if isPySpace c then splitRun rest true false []
      else if c = ',' then splitRun rest false true []
      else splitRun rest false false [c]
  | c :: rest, false, true, curr =>
      if isPySpace c then curr.reverse :: splitRun rest true false []
      else if c = ',' then splitRun rest false true (',' :: curr)
      else splitRun rest false false (c :: ',' :: curr)
  | c :: rest, false, false, curr =>
      if c = ',' then splitRun rest false true curr
      else splitRun rest false false (c :: curr)

/-- `re.split(r'\,\s+', s)`: split on each comma that is followed by at
least one whitespace character, the whitespace run being consumed. -/
def splitArgs (s : String) : List String :=
  (splitRun s.toList false false []).map String.mk

/-- The fragment `(?:(?P<prefix>[\w\_\-\.]+)\.|)(?P<member>[\w\_\-]+)`
of the signature regex, applied to the part of the input before any
parenthesis.  Backtracking makes the prefix group end at the last dot;
the match fails when the member after the last dot, or the prefix before
it, would be empty, or when a character outside the classes occurs. -/
def parseBase (base : List Char) : Option (Option String × String) :=
  if base = [] then none
  else if !(base.all isPfxChar) then none
  else if '.' ∈ base then
    let memberRev := base.reverse.takeWhile (fun c => c != '.')
    let preRev := (base.reverse.dropWhile (fun c => c != '.')).drop 1
    if memberRev = [] then none
    else if preRev = [] then none
    else some (some (String.mk preRev.reverse), String.mk memberRev.reverse)
  else some (none, String.mk base)

/-- The whole signature regex
`^(?:(?P<prefix>[\w\_\-\.]+)\.|)(?P<member>[\w\_\-]+)(?:\((?P<arguments>[^)]+)\)|)$`
as the function it computes: the groups `(prefix, member, arguments)` on
a match, `none` on no match.  Since `(` and `)` occur in no other class,
a match containing a parenthesis splits at the first `(`; the argument
part must then be `(` followed by a nonempty `)`-free text and a final
`)`. -/
def reMatch (cs : List Char) : Option (Option String × String × Option (List Char)) :=
  let base := cs.takeWhile (fun c => c != '(')
  let rest := cs.dropWhile (fun c => c != '(')
  match rest with
  | [] =>
    match parseBase base with
    | some (p, m) => some (p, m, none)
    | none => none
  | _ :: tail =>
    if tail.getLast? = some ')' ∧ tail.dropLast ≠ [] ∧ ')' ∉ tail.dropLast then
      match parseBase base with
      | some (p, m) => some (p, m, some tail.dropLast)
      | none => none
    else none

/-- The exception raised by `return cls()` on the no-match path of
`from_string`: `__init__` has three required positional parameters. -/
def typeErrorMsg : String :=
  "TypeError: __init__ missing 3 required positional arguments"

/-- `DotNetSignature.from_string`.  On a regex match, `arguments` stays
`None` unless the argument group is a nonempty string, in which case it
is split on comma-plus-whitespace.  On no match the method executes
`return cls()`, which raises `TypeError` because `__init__` takes three
required arguments. -/
def DotNetSignature.from_string (signature : String) : Except String DotNetSignature :=
  match reMatch signature.toList with
  | none => .error typeErrorMsg
  | some (p, m, argString) =>
    let arguments : Option (List String) :=
      match argString with
      | none => none
      | some s => if s = [] then none else some (splitArgs (String.mk s))
    .ok ⟨p, m, arguments⟩

/-- `DotNetSignature.full_name`: dot-join the prefix and the member when
a prefix is present, else the member alone. -/
def DotNetSignature.full_name (sig : DotNetSignature) : String :=
  match sig.pfx with
  | some p => p ++ "." ++ sig.member
  | none => sig.member

/-- One piece appended to the signature node by `handle_signature`:
`desc_annotation`, `desc_addname`, `desc_name`, or the parameter list
(`descParamlist none` is the empty `desc_parameterlist()`, and
`descParamlist (some txt)` is `_pseudo_parse_arglist` applied to the
comma-joined argument text). -/
inductive NodePart where
  | descAnnot (s : String)
  | descAddname (s : String)
  | descName (s : String)
  | descParamlist (argtext : Option String)
deriving Repr, DecidableEq, BEq

/-- True exactly on `desc_addname` parts (the rendered qualifying path). -/
def isAddname : NodePart → Bool
  | NodePart.descAddname _ => true
  | _ => false

/-- The argument-list part of the rendered node: `if not sig.arguments`
(Python falsy: `None` or the empty list) an empty `desc_parameterlist`,
else `_pseudo_parse_arglist(signode, ', '.join(sig.arguments))`; nothing
when the construct kind has no arguments. -/
def arg_part (hasArguments : Bool) (args : Option (List String)) : List NodePart :=
  if hasArguments then
    match args with
    | none => [NodePart.descParamlist none]
    | some [] => [NodePart.descParamlist none]
    | some (x :: xs) => [NodePart.descParamlist (some (String.intercalate ", " (x :: xs)))]
  else []

/-- The node parts appended by `handle_signature`, in order: the display
annotation (when the kind has one), the remaining signature prefix plus a
dot (when still present after redundancy clearing), the member name, and
the argument list. -/
def render_parts (displayPfx : Option String) (hasArguments : Bool)
    (sig : DotNetSignature) : List NodePart :=
  (match displayPfx with
   | some dp => [NodePart.descAnnot dp]
   | none => []) ++
  (match sig.pfx with
   | some p => [NodePart.descAddname (p ++ ".")]
   | none => []) ++
  [NodePart.descName sig.member] ++
  arg_part hasArguments sig.arguments

/-- Everything `handle_signature` produces: the node parts, the
attributes set on the node (`signode['object']`, `signode['package']`,
`signode['fullname']`), and the returned pair `(full_name, prefix)`. -/
structure HandleResult where
  parts : List NodePart
  nodeObject : String
  nodePackage : Option String
  nodeFullname : String
  retFullname : String
  retPfx : Option String
deriving Repr, DecidableEq, BEq

/-- `DotNetObject.handle_signature`.  `tempPfx` is
`env.temp_data.get('dn:prefix', None)`.  The parsed prefix is cleared
when the context prefix is truthy and equal to it; the node attributes,
the rendered parts and the returned identity tuple are all computed from
the cleared signature.  A `from_string` exception propagates. -/
def DotNetObject.handle_signature (displayPfx : Option String) (hasArguments : Bool)
    (rawSig : String) (tempPfx : Option String) : Except String HandleResult :=
  match DotNetSignature.from_string (pyStrip rawSig) with
  | .error e => .error e
  | .ok sig0 =>
    let clearIt : Bool :=
      match tempPfx with
      | some p => (!(p = "")) && (sig0.pfx == some p)
      | none => false
    let sig : DotNetSignature := if clearIt then ⟨none, sig0.member, sig0.arguments⟩ else sig0
    .ok ⟨render_parts displayPfx hasArguments sig, sig.member, sig.pfx,
         sig.full_name, sig.full_name, sig.pfx⟩

/-- `DotNetObjectNested.before_content`.  `names` is the list of identity
tuples returned by `handle_signature` for this directive; when nonempty,
its last element is popped, its second component is written to
`temp_data['dn:prefix']`, and the `clsname_set` flag is raised.  Returns
the new prefix state and the flag. -/
def DotNetObjectNested.before_content (names : List (String × Option String))
    (tempPfx : Option String) : Option String × Bool :=
  match names.getLast? with
  | some (_, p) => (p, true)
  | none => (tempPfx, false)

/-- `DotNetObjectNested.after_content`: when `clsname_set` was raised,
`temp_data['dn:prefix']` is set to `None`; otherwise it is untouched. -/
def DotNetObjectNested.after_content (clsnameSet : Bool) (tempPfx : Option String) :
    Option String :=
  if clsnameSet then none else tempPfx

/-- Anchor-id sanitization: `fullname.replace('$', '_S_')`. -/
def sanitize (s : String) : String := s.replace "$" "_S_"

/-- The domain registry `env.domaindata['dn']['objects']`: entries
`fullname -> (docname, objtype)`, first match wins on lookup and keys are
kept unique on insert, matching a Python dict. -/
def regLookup : List (String × String × String) → String → Option (String × String)
  | [], _ => none
  | (k, v) :: rest, key => if k = key then some v else regLookup rest key

/-- Python dict assignment `objects[fullname] = value`: replace the entry
for an existing key, else append a new one. -/
def regInsert : List (String × String × String) → String → String × String →
    List (String × String × String)
  | [], k, v => [(k, v)]
  | (k', v') :: rest, k, v =>
    if k' = k then (k, v) :: rest else (k', v') :: regInsert rest k v

/-- `DotNetObject.get_index_text`.  `name_obj` is the identity tuple
`(full_name, prefix)` returned by `handle_signature`; `objectname` is
read by the caller but unused here, as in the source.  Dispatch is on
`self.objtype`, which for this domain is the directive's long name.
`if not obj` is Python falsiness (absent or empty); `%s` applied to an
absent value prints `None`. -/
def DotNetObject.get_index_text (objtype : String) (objectname : Option String)
    (name_obj : String × Option String) : String :=
  let name := name_obj.1
  let obj := name_obj.2
  if objtype = "function" then
    match obj with
    | none => name ++ "() (built-in function)"
    | some o => if o = "" then name ++ "() (built-in function)"
                else name ++ "() (" ++ o ++ " method)"
  else if objtype = "package" then
    name ++ " (package)"
  else if objtype = "data" then
    name ++ " (global variable or constant)"
  else if objtype = "attribute" then
    name ++ " (" ++ (match obj with | none => "None" | some o => o) ++ " attribute)"
  else ""

/-- The registration-relevant build state: the anchor ids already noted
in the current document (`self.state.document.ids`) and the domain
registry. -/
structure ATIState where
  docIds : List String
  objects : List (String × String × String)
deriving Repr, DecidableEq

/-- What one `add_target_and_index` call produces: the updated state, the
warnings emitted through the reporter (each as the duplicate full name
paired with the document holding the original entry), and the index
entries appended (index text paired with the sanitized anchor id). -/
structure ATIOutput where
  state : ATIState
  warnings : List (String × String)
  index : List (String × String)
deriving Repr, DecidableEq

/-- `DotNetObject.add_target_and_index`.  When the full name is not yet
an id of the current document, the node is noted as an explicit target
(adding the sanitized id to the document), a duplicate already in the
registry produces a non-fatal warning naming it and the original's
document, and the registry entry is then assigned
`(self.env.docname, self.objtype)`.  An index entry is appended whenever
`get_index_text` is nonempty. -/
def DotNetObject.add_target_and_index (objtype docname : String)
    (objectname : Option String) (name_obj : String × Option String)
    (st : ATIState) : ATIOutput :=
  let fullname := name_obj.1
  let state' : ATIState :=
    if fullname ∈ st.docIds then st
    else ⟨st.docIds ++ [sanitize fullname],
          regInsert st.objects fullname (docname, objtype)⟩
  let warns : List (String × String) :=
    if fullname ∈ st.docIds then []
    else
      match regLookup st.objects fullname with
      | some (d, _) => [(fullname, d)]
      | none => []
  let itext := DotNetObject.get_index_text objtype objectname name_obj
  let idx : List (String × String) :=
    if itext = "" then [] else [(itext, sanitize fullname)]
  ⟨state', warns, idx⟩

/-- Result shape of `find_obj`: the early `return []` for an empty target
name, or the pair `(newname, objects.get(newname))` of the normal path. -/
inductive FindResult where
  | emptyList
  | pair (newname : Option String) (entry : Option (String × String))
deriving Repr, DecidableEq

/-- `if name[-2:] == '()': name = name[:-2]` — strip a trailing
parenthesis pair. -/
def stripParens (name : String) : String :=
  let cs := name.toList
  if cs.reverse.take 2 = [')', '('] then String.mk cs.dropLast.dropLast else name

/-- `DotNetDomain.find_obj`.  `pkg` is the context namespace; a qualified
candidate is considered only when `pkg` is truthy (present and
nonempty).  With `searchorder == 1` the qualified name is preferred and
the bare name is the unconditional fallback; otherwise the bare name is
preferred and the qualified name is the fallback, with `newname` left
`None` when neither is registered.  `obj_type` is unused, as in the
source. -/
def DotNetDomain.find_obj (objects : List (String × String × String))
    (pkg : Option String) (name : String) (obj_type : String)
    (searchorder : Nat) : FindResult :=
  let name' := stripParens name
  if name' = "" then FindResult.emptyList
  else
    let pkgT : Bool := match pkg with | some s => !(s = "") | none => false
    let fullname : String := match pkg with | some s => s ++ "." ++ name' | none => name'
    if searchorder = 1 then
      if pkgT && (regLookup objects fullname).isSome then
        FindResult.pair (some fullname) (regLookup objects fullname)
      else FindResult.pair (some name') (regLookup objects name')
    else
      if (regLookup objects name').isSome then
        FindResult.pair (some name') (regLookup objects name')
      else if pkgT && (regLookup objects fullname).isSome then
        FindResult.pair (some fullname) (regLookup objects fullname)
      else FindResult.pair none none

/-- The exception raised when `resolve_xref` unpacks the empty list that
`find_obj` returns for an empty target name. -/
def valueErrorMsg : String :=
  "ValueError: not enough values to unpack"

/-- `DotNetDomain.resolve_xref`.  The search order is 1 exactly when the
node carries `refspecific`.  `name, obj = self.find_obj(...)` raises
`ValueError` on the `[]` result; otherwise a missing entry yields no
link, and a found entry yields `make_refnode` data: the target document,
the sanitized anchor id, and the matched name as the title. -/
def DotNetDomain.resolve_xref (objects : List (String × String × String))
    (ns : Option String) (objectname : Option String) (refspecific : Bool)
    (target : String) : Except String (Option (String × String × String)) :=
  let searchorder := if refspecific then 1 else 0
  match DotNetDomain.find_obj objects ns target "" searchorder with
  | FindResult.emptyList => .error valueErrorMsg
  | FindResult.pair _ none => .ok none
  | FindResult.pair n (some (doc, _)) =>
    .ok (some (doc, sanitize (n.getD ""), n.getD ""))

/-- `DotNetXRefRole.process_link`.  Returns the displayed title, the
lookup target, and whether the reference was marked `refspecific`.  The
title/target rewrites happen only when the author gave no explicit
title; the leading-dot check on the target happens unconditionally. -/
def DotNetXRefRole.process_link (hasExplicitTitle : Bool) (title target : String) :
    String × String × Bool :=
  let p1 : String × String :=
    if hasExplicitTitle then (title, target)
    else
      let t1 := String.mk (title.toList.dropWhile (fun c => c == '.'))
      let tg1 := String.mk (target.toList.dropWhile (fun c => c == '~'))
      let t2 :=
        if t1.toList.head? = some '~' then
          let t3 := t1.toList.drop 1
          if '.' ∈ t3 then String.mk (t3.reverse.takeWhile (fun c => c != '.')).reverse
          else String.mk t3
        else t1
      (t2, tg1)
  if p1.2.toList.head? = some '.' then (p1.1, String.mk (p1.2.toList.drop 1), true)
  else (p1.1, p1.2, false)

/-- Static metadata of one construct kind: the class attributes
`short_name`, `long_name`, `display_prefix`, `has_arguments`, and
whether the directive class derives from `DotNetObjectNested`. -/
structure KindInfo where
  shortName : String
  longName : String
  displayPfx : Option String
  hasArguments : Bool
  isNesting : Bool
deriving Repr, DecidableEq

/-- The `_types` table: the eight construct kinds the domain registers.
`object_types`, `directives` and `roles` are keyed by these entries, so
`self.objtype` of a directive is always one of the long names. -/
def dnTypes : List KindInfo :=
  [⟨"ns", "namespace", some "namespace ", false, true⟩,
   ⟨"cls", "class", some "class ", false, true⟩,
   ⟨"struct", "structure", some "structure ", false, true⟩,
   ⟨"iface", "interface", some "interface ", false, true⟩,
   ⟨"del", "delegate", some "delegate ", false, true⟩,
   ⟨"enum", "enumeration", some "enumeration ", false, true⟩,
   ⟨"meth", "method", none, true, false⟩,
   ⟨"prop", "property", none, true, false⟩]

/-- The key column of the registry. -/
def regKeys : List (String × String × String) → List String
  | [] => []
  | (k, _) :: rest => k :: regKeys rest

/-- Registration of `NS.Foo` from document `docA` into an empty build. -/
def c1_reg1 : ATIOutput :=
  DotNetObject.add_target_and_index "class" "docA" none ("NS.Foo", none) ⟨[], []⟩

/-- A later registration of the same full name from document `docB`
(whose own id table is fresh), over the registry left by `c1_reg1`. -/
def c1_reg2 : ATIOutput :=
  DotNetObject.add_target_and_index "class" "docB" none ("NS.Foo", none)
    ⟨[], c1_reg1.state.objects⟩

/-- True exactly on `desc_name` parts (the rendered member name). -/
def isNamePart : NodePart → Bool
  | NodePart.descName _ => true
  | _ => false

/-- Registry used to exercise both search orders: the bare name and the
qualified name are both registered, in different documents. -/
def c4objs : List (String × String × String) :=
  [("Foo", "docA", "class"), ("NS.Foo", "docB", "class")]

/-- A fragment is split-free when no comma inside it is immediately
followed by whitespace: `re.split(r'\,\s+', ...)` matches nowhere in
it. -/
def noCommaWs : List Char → Bool
  | [] => true
  | [_] => true
  | c1 :: c2 :: rest => (!(c1 == ',' && isPySpace c2)) && noCommaWs (c2 :: rest)

theorem strToList_append (a b : String) : (a ++ b).toList = a.toList ++ b.toList :=
  String.data_append a b

theorem regLookup_regInsert_self (l : List (String × String × String)) (k : String)
    (v : String × String) : regLookup (regInsert l k v) k = some v := by
  induction l with
  | nil => simp [regInsert, regLookup]
  | cons hd tl ih =>
    obtain ⟨k', v'⟩ := hd
    by_cases h : k' = k
    · subst h
      simp [regInsert, regLookup]
    · simp [regInsert, regLookup, h, ih]

theorem regLookup_regInsert_other (l : List (String × String × String)) (k g : String)
    (v : String × String) (h : g ≠ k) :
    regLookup (regInsert l k v) g = regLookup l g := by
  induction l with
  | nil => simp [regInsert, regLookup, Ne.symm h]
  | cons hd tl ih =>
    obtain ⟨k', v'⟩ := hd
    by_cases hk : k' = k
    · subst hk
      simp [regInsert, regLookup, Ne.symm h]
    · simp only [regInsert, if_neg hk, regLookup]
      by_cases hg : k' = g
      · simp [hg]
      · simp [hg, ih]

theorem regInsert_keys_sub (l : List (String × String × String)) (k : String)
    (v : String × String) :
    ∀ g ∈ regKeys (regInsert l k v), g = k ∨ g ∈ regKeys l := by
  induction l with
  | nil =>
    intro g hg
    simp only [regInsert, regKeys, List.mem_singleton] at hg
    exact Or.inl hg
  | cons hd tl ih =>
    obtain ⟨k', v'⟩ := hd
    by_cases h : k' = k
    · subst h
      intro g hg
      simp only [regInsert, if_pos rfl] at hg
      simp only [regKeys, List.mem_cons] at hg ⊢
      exact hg.imp_right Or.inr
    · intro g hg
      simp only [regInsert, if_neg h] at hg
      simp only [regKeys, List.mem_cons] at hg ⊢
      rcases hg with rfl | hg
      · exact Or.inr (Or.inl rfl)
      · exact (ih g hg).imp_right Or.inr

theorem regInsert_keys_nodup (l : List (String × String × String)) (k : String)
    (v : String × String) (h : (regKeys l).Nodup) :
    (regKeys (regInsert l k v)).Nodup := by
  induction l with
  | nil => simp [regInsert, regKeys]
  | cons hd tl ih =>
    obtain ⟨k', v'⟩ := hd
    simp only [regKeys, List.nodup_cons] at h
    by_cases hk : k' = k
    · subst hk
      simp only [regInsert, if_pos rfl, regKeys, List.nodup_cons]
      exact h
    · simp only [regInsert, if_neg hk, regKeys, List.nodup_cons]
      refine ⟨?_, ih h.2⟩
      intro hmem
      rcases regInsert_keys_sub tl k v k' hmem with rfl | hmem'
      · exact hk rfl
      · exact h.1 hmem'

/-- C1 is false as stated: registering `NS.Foo` in `docA` and then in
`docB` does warn, naming the duplicate and `docA`, but the registry
entry is then assigned the later `(document, kind)` value — the entry
ends at `docB`, so the first registration does not win. -/
theorem C1_counterexample :
    c1_reg1.state.objects = [("NS.Foo", "docA", "class")]
    ∧ c1_reg2.warnings = [("NS.Foo", "docA")]
    ∧ regLookup c1_reg2.state.objects "NS.Foo" = some ("docB", "class")
    ∧ some ("docB", "class") ≠ (some ("docA", "class") : Option (String × String)) :=
  ⟨rfl, rfl, rfl, by decide⟩

/-- C2 is false as stated: in the namespace/class/method scenario the
namespace `NS` pushes `none` (the second component of its identity
tuple) rather than its full name, the class `NS.Cls` pushes `some "NS"`,
so the method observes `some "NS"`, not the class's full name
`NS.Cls`; and closing the class body resets the prefix to `none`, not to
the namespace's name. -/
theorem C2_counterexample :
    DotNetObject.handle_signature (some "namespace ") false "NS" none =
      .ok ⟨[NodePart.descAnnot "namespace ", NodePart.descName "NS"],
           "NS", none, "NS", "NS", none⟩
    ∧ DotNetObjectNested.before_content [("NS", none)] none = (none, true)
    ∧ DotNetObject.handle_signature (some "class ") false "NS.Cls" none =
      .ok ⟨[NodePart.descAnnot "class ", NodePart.descAddname "NS.", NodePart.descName "Cls"],
           "Cls", some "NS", "NS.Cls", "NS.Cls", some "NS"⟩
    ∧ DotNetObjectNested.before_content [("NS.Cls", some "NS")] none = (some "NS", true)
    ∧ (some "NS" : Option String) ≠ some "NS.Cls"
    ∧ DotNetObjectNested.after_content true (some "NS") = none
    ∧ (none : Option String) ≠ some "NS" :=
  ⟨rfl, rfl, rfl, rfl, by decide, rfl, by decide⟩

/-- C3 is false as stated: under context prefix `NS.Cls`, the signature
`NS.Cls.Method` renders without the redundant prefix, but the prefix is
cleared before `full_name()` is computed, so the returned registry key
is the bare `Method`, not `NS.Cls.Method`. -/
theorem C3_counterexample :
    DotNetObject.handle_signature none true "NS.Cls.Method" (some "NS.Cls") =
      .ok ⟨[NodePart.descName "Method", NodePart.descParamlist none],
           "Method", none, "Method", "Method", none⟩
    ∧ ("Method" : String) ≠ "NS.Cls.Method" :=
  ⟨rfl, by decide⟩

/-- C5: on a signature the grammar does not match, `from_string`
executes `return cls()`, and since `__init__` has three required
positional parameters this raises `TypeError` instead of returning a
partial signature. -/
theorem C5_malformed_raises :
    DotNetSignature.from_string "Foo(" = .error typeErrorMsg :=
  rfl

/-- C6 is false as stated: `Method()` does not match the grammar at all
(the argument group requires nonempty content), so parsing it takes the
no-match path and errors rather than producing `arguments = []`. -/
theorem C6_counterexample :
    DotNetSignature.from_string "Method()" = .error typeErrorMsg
    ∧ Except.error typeErrorMsg ≠
      (.ok ⟨none, "Method", some []⟩ : Except String DotNetSignature) :=
  ⟨rfl, fun h => Except.noConfusion h⟩

/-- C6, amended: an empty parenthesis pair fails the grammar and takes
the erroring `cls()` path; a parenthesis pair holding only whitespace
yields the singleton whitespace fragment, not an empty list; a signature
without parentheses yields absent arguments. -/
theorem C6_amended :
    DotNetSignature.from_string "Method()" = .error typeErrorMsg
    ∧ DotNetSignature.from_string "Method( )" = .ok ⟨none, "Method", some [" "]⟩
    ∧ DotNetSignature.from_string "Method" = .ok ⟨none, "Method", none⟩ :=
  ⟨rfl, rfl, rfl⟩

/-- C8 is false as stated: `get_index_text` dispatches on
`self.objtype`, which for this domain is always one of the eight long
names, never `function`, `package`, `data` or `attribute`; so a method,
a namespace and a property all produce the empty string instead of the
index texts of the table. -/
theorem C8_counterexample :
    DotNetObject.get_index_text "method" none ("M", some "Cls") = ""
    ∧ ("" : String) ≠ "M() (Cls method)"
    ∧ DotNetObject.get_index_text "namespace" none ("N", none) = ""
    ∧ ("" : String) ≠ "N (package)"
    ∧ DotNetObject.get_index_text "property" none ("P", some "Cls") = ""
    ∧ ("" : String) ≠ "P (Cls attribute)" :=
  ⟨rfl, by decide, rfl, by decide, rfl, by decide⟩

/-- C9 is false as stated: with an explicit title, `process_link`
leaves the target's leading tilde in place; stripping is not
unconditional. -/
theorem C9_counterexample :
    DotNetXRefRole.process_link true "T" "~Foo" = ("T", "~Foo", false)
    ∧ ("~Foo" : String) ≠ "Foo" :=
  ⟨rfl, by decide⟩

/-- C10: a reference target that is empty after stripping `()` makes
`find_obj` return the empty list, which `resolve_xref` unpacks as a
pair, raising `ValueError`; a merely unresolvable nonempty target, by
contrast, degrades gracefully to no link. -/
theorem C10_empty_target_raises :
    DotNetDomain.resolve_xref [] (some "NS") none false "()" = .error valueErrorMsg
    ∧ DotNetDomain.resolve_xref [] (some "NS") none false "Missing" = .ok none :=
  ⟨rfl, rfl⟩

/-- C1, amended: a later registration of a full name already in the
registry (and not yet an anchor of the current document) emits exactly
one warning naming the duplicate and the original's document, then
assigns the later `(document, kind)` value over the entry — the last
registration wins.  Other keys are untouched and the registry keeps at
most one entry per key. -/
theorem C1_amended (st : ATIState) (f d0 t0 d t : String) (o q : Option String)
    (hnotin : f ∉ st.docIds)
    (hdup : regLookup st.objects f = some (d0, t0))
    (hnodup : (regKeys st.objects).Nodup) :
    (DotNetObject.add_target_and_index t d o (f, q) st).warnings = [(f, d0)]
    ∧ regLookup (DotNetObject.add_target_and_index t d o (f, q) st).state.objects f
        = some (d, t)
    ∧ (∀ g, g ≠ f →
        regLookup (DotNetObject.add_target_and_index t d o (f, q) st).state.objects g
          = regLookup st.objects g)
    ∧ (regKeys (DotNetObject.add_target_and_index t d o (f, q) st).state.objects).Nodup := by
  have h1 : ((f, q).1 : String) = f := rfl
  refine ⟨?_, ?_, ?_, ?_⟩
  · simp [DotNetObject.add_target_and_index, h1, hnotin, hdup]
  · simp only [DotNetObject.add_target_and_index, h1, if_neg hnotin]
    exact regLookup_regInsert_self st.objects f (d, t)
  · intro g hg
    simp only [DotNetObject.add_target_and_index, h1, if_neg hnotin]
    exact regLookup_regInsert_other st.objects f g (d, t) hg
  · simp only [DotNetObject.add_target_and_index, h1, if_neg hnotin]
    exact regInsert_keys_nodup st.objects f (d, t) hnodup

theorem C1_witness :
    (DotNetObject.add_target_and_index "class" "docB" none ("NS.Foo", none)
       ⟨[], [("NS.Foo", "docA", "class")]⟩).warnings = [("NS.Foo", "docA")]
    ∧ regLookup (DotNetObject.add_target_and_index "class" "docB" none ("NS.Foo", none)
       ⟨[], [("NS.Foo", "docA", "class")]⟩).state.objects "NS.Foo"
        = some ("docB", "class") := by
  have h := C1_amended ⟨[], [("NS.Foo", "docA", "class")]⟩ "NS.Foo" "docA" "class"
    "docB" "class" none none (by simp) (by decide) (by decide)
  exact ⟨h.1, h.2.1⟩

/-- C2, amended: entering a nesting construct's body sets the context
prefix to the second component of the popped identity tuple (the
signature's parsed, possibly cleared prefix), not to the construct's
full name; leaving the body after a push always resets the prefix to
`none` rather than restoring the prior value. -/
theorem C2_amended (names : List (String × Option String)) (tp : Option String)
    (parent : String) (p : Option String)
    (h : names.getLast? = some (parent, p)) :
    DotNetObjectNested.before_content names tp = (p, true)
    ∧ ∀ q : Option String, DotNetObjectNested.after_content true q = none := by
  unfold DotNetObjectNested.before_content
  rw [h]
  exact ⟨rfl, fun _ => rfl⟩

theorem C2_witness :
    DotNetObjectNested.before_content [("NS.Cls", some "NS")] none = (some "NS", true)
    ∧ DotNetObjectNested.after_content true (some "NS") = none :=
  ⟨(C2_amended [("NS.Cls", some "NS")] none "NS.Cls" (some "NS") rfl).1,
   (C2_amended [("NS.Cls", some "NS")] none "NS.Cls" (some "NS") rfl).2 (some "NS")⟩

theorem render_parts_no_addname (dp : Option String) (ha : Bool) (m : String)
    (args : Option (List String)) :
    (render_parts dp ha ⟨none, m, args⟩).filter isAddname = [] := by
  rcases dp with _ | dpv <;> rcases ha <;> rcases args with _ | ⟨_ | ⟨x, xs⟩⟩ <;>
    simp [render_parts, arg_part, isAddname]

theorem render_parts_name (dp : Option String) (ha : Bool) (m : String)
    (args : Option (List String)) :
    (render_parts dp ha ⟨none, m, args⟩).filter isNamePart = [NodePart.descName m] := by
  rcases dp with _ | dpv <;> rcases ha <;> rcases args with _ | ⟨_ | ⟨x, xs⟩⟩ <;>
    simp [render_parts, arg_part, isNamePart, isAddname]

/-- C3, amended: when the parsed prefix equals a truthy context prefix,
the rendered node indeed omits the qualifying path and shows the bare
member name — but the prefix is cleared before `full_name()` is
computed, so the returned identity/registry key is also the bare member
name, not the fully qualified one. -/
theorem C3_amended (raw P m : String) (args : Option (List String))
    (dp : Option String) (ha : Bool)
    (hP : P ≠ "")
    (hparse : DotNetSignature.from_string (pyStrip raw) = .ok ⟨some P, m, args⟩) :
    (DotNetObject.handle_signature dp ha raw (some P)).map
        (fun r => (r.retFullname, r.retPfx, r.nodeFullname,
                   r.parts.filter isAddname, r.parts.filter isNamePart))
      = .ok (m, none, m, [], [NodePart.descName m]) := by
  unfold DotNetObject.handle_signature
  rw [hparse]
  have hc : ((!(P = "")) &&
      ((⟨some P, m, args⟩ : DotNetSignature).pfx == some P)) = true := by
    simp [hP]
  simp only [hc, if_true, Except.map]
  simp [DotNetSignature.full_name, render_parts_no_addname, render_parts_name]

theorem C3_witness :
    (DotNetObject.handle_signature none true "NS.Cls.Method" (some "NS.Cls")).map
        (fun r => (r.retFullname, r.retPfx, r.nodeFullname,
                   r.parts.filter isAddname, r.parts.filter isNamePart))
      = .ok ("Method", none, "Method", [], [NodePart.descName "Method"]) :=
  C3_amended "NS.Cls.Method" "NS.Cls" "Method" none none true (by decide) rfl

/-- C4: `find_obj` follows the two search-order policies.  With
`searchorder = 1` and a truthy namespace, a registered qualified name
wins, and otherwise the bare target is returned as the unconditional
fallback; with the default order a registered bare target wins, the
registered qualified name is the fallback, and nothing matches
otherwise. -/
theorem C4_search_order (objects : List (String × String × String))
    (ns target ty : String) (hns : ns ≠ "") (hne : stripParens target ≠ "") :
    (∀ e, regLookup objects (ns ++ "." ++ stripParens target) = some e →
       DotNetDomain.find_obj objects (some ns) target ty 1
         = FindResult.pair (some (ns ++ "." ++ stripParens target)) (some e))
    ∧ (regLookup objects (ns ++ "." ++ stripParens target) = none →
       DotNetDomain.find_obj objects (some ns) target ty 1
         = FindResult.pair (some (stripParens target))
             (regLookup objects (stripParens target)))
    ∧ (∀ e, regLookup objects (stripParens target) = some e →
       DotNetDomain.find_obj objects (some ns) target ty 0
         = FindResult.pair (some (stripParens target)) (some e))
    ∧ (∀ e, regLookup objects (stripParens target) = none →
       regLookup objects (ns ++ "." ++ stripParens target) = some e →
       DotNetDomain.find_obj objects (some ns) target ty 0
         = FindResult.pair (some (ns ++ "." ++ stripParens target)) (some e)) := by
  refine ⟨?_, ?_, ?_, ?_⟩
  · intro e he
    simp [DotNetDomain.find_obj, hne, hns, he]
  · intro he
    simp [DotNetDomain.find_obj, hne, hns, he]
  · intro e he
    simp [DotNetDomain.find_obj, hne, hns, he]
  · intro e he hq
    simp [DotNetDomain.find_obj, hne, hns, he, hq]

theorem C4_witness :
    DotNetDomain.find_obj c4objs (some "NS") "Foo" "meth" 0
      = FindResult.pair (some "Foo") (some ("docA", "class"))
    ∧ DotNetDomain.find_obj c4objs (some "NS") "Foo" "meth" 1
      = FindResult.pair (some "NS.Foo") (some ("docB", "class")) := by
  have h := C4_search_order c4objs "NS" "Foo" "meth" (by decide) (by decide)
  exact ⟨h.2.2.1 ("docA", "class") (by decide), h.1 ("docB", "class") (by decide)⟩

/-- C8, amended: every objtype this domain can give a directive is one
of the eight long names of the catalog, and for each of them
`get_index_text` returns the empty string — its `function`, `package`,
`data` and `attribute` branches are unreachable here — so
`add_target_and_index` never appends an index entry. -/
theorem C8_amended (t : String) (ht : t ∈ dnTypes.map KindInfo.longName)
    (o : Option String) (f : String) (q : Option String) (d : String) (st : ATIState) :
    DotNetObject.get_index_text t o (f, q) = ""
    ∧ (DotNetObject.add_target_and_index t d o (f, q) st).index = [] := by
  have ht' : t = "namespace" ∨ t = "class" ∨ t = "structure" ∨ t = "interface"
      ∨ t = "delegate" ∨ t = "enumeration" ∨ t = "method" ∨ t = "property" := by
    simpa [dnTypes] using ht
  rcases ht' with rfl | rfl | rfl | rfl | rfl | rfl | rfl | rfl <;> exact ⟨rfl, rfl⟩

theorem C8_witness :
    DotNetObject.get_index_text "method" (some "Obj") ("M", some "Cls") = ""
    ∧ (DotNetObject.add_target_and_index "method" "doc1" (some "Obj") ("M", some "Cls")
        ⟨[], []⟩).index = [] :=
  C8_amended "method" (by simp [dnTypes]) (some "Obj") "M" (some "Cls") "doc1" ⟨[], []⟩

/-- C9, amended: leading tildes are stripped from the target only when
the author gave no explicit title — in the inferred-title case a
prepended `~` makes no difference to the processed link, while with an
explicit title the target keeps its leading `~` verbatim. -/
theorem C9_amended (title target : String) :
    DotNetXRefRole.process_link false title ("~" ++ target)
      = DotNetXRefRole.process_link false title target
    ∧ DotNetXRefRole.process_link true title ("~" ++ target)
      = (title, "~" ++ target, false) := by
  have h : ("~" ++ target).toList = '~' :: target.toList := strToList_append "~" target
  constructor
  · unfold DotNetXRefRole.process_link
    rw [h]
    simp [List.dropWhile]
  · unfold DotNetXRefRole.process_link
    simp [h]

theorem noCommaWs_tail (c : Char) (x : List Char) (h : noCommaWs (c :: x) = true) :
    noCommaWs x = true := by
  cases x with
  | nil => rfl
  | cons d rest => exact ((Bool.and_eq_true _ _).mp h).2

theorem noCommaWs_pair (c d : Char) (x : List Char)
    (h : noCommaWs (c :: d :: x) = true) : (c == ',' && isPySpace d) = false := by
  cases hcd : (c == ',' && isPySpace d) with
  | false => rfl
  | true =>
    have h1 := ((Bool.and_eq_true _ _).mp h).1
    rw [hcd] at h1
    exact absurd h1 (by decide)

theorem splitRun_skip (rest : List Char)
    (h : ∀ dd, rest.head? = some dd → isPySpace dd = false) :
    splitRun rest true false [] = splitRun rest false false [] := by
  cases rest with
  | nil => rfl
  | cons c tail =>
    have hc := h c rfl
    by_cases hcc : c = ','
    · subst hcc
      simp [splitRun, hc]
    · simp [splitRun, hc, hcc]

theorem splitRun_last (x : List Char) : ∀ curr : List Char,
    (noCommaWs x = true → splitRun x false false curr = [curr.reverse ++ x])
    ∧ ((∀ dd, x.head? = some dd → isPySpace dd = false) → noCommaWs x = true →
        splitRun x false true curr = [curr.reverse ++ ',' :: x]) := by
  induction x with
  | nil =>
    intro curr
    exact ⟨fun _ => by simp [splitRun], fun _ _ => by simp [splitRun]⟩
  | cons c rest ih =>
    intro curr
    have hhead : noCommaWs (',' :: rest) = true →
        ∀ dd, rest.head? = some dd → isPySpace dd = false := by
      intro hn dd hdd
      cases rest with
      | nil => simp at hdd
      | cons e tail =>
        have hsp2 : isPySpace e = false := by
          simpa using noCommaWs_pair ',' e tail hn
        simp at hdd
        subst hdd
        exact hsp2
    constructor
    · intro hn
      by_cases hc : c = ','
      · subst hc
        rw [show splitRun (',' :: rest) false false curr = splitRun rest false true curr
              from by simp [splitRun]]
        rw [(ih curr).2 (hhead hn) (noCommaWs_tail _ _ hn)]
      · rw [show splitRun (c :: rest) false false curr = splitRun rest false false (c :: curr)
              from by simp [splitRun, hc]]
        rw [(ih (c :: curr)).1 (noCommaWs_tail _ _ hn)]
        simp
    · intro hh hn
      have hcws : isPySpace c = false := hh c rfl
      by_cases hc : c = ','
      · subst hc
        rw [show splitRun (',' :: rest) false true curr = splitRun rest false true (',' :: curr)
              from by simp [splitRun, hcws]]
        rw [(ih (',' :: curr)).2 (hhead hn) (noCommaWs_tail _ _ hn)]
        simp
      · rw [show splitRun (c :: rest) false true curr
              = splitRun rest false false (c :: ',' :: curr)
              from by simp [splitRun, hcws, hc]]
        rw [(ih (c :: ',' :: curr)).1 (noCommaWs_tail _ _ hn)]
        simp

theorem splitRun_split (w : Char) (hw : isPySpace w = true) (rest : List Char)
    (x : List Char) : ∀ curr : List Char, noCommaWs x = true →
    (splitRun (x ++ ',' :: w :: rest) false false curr
       = (curr.reverse ++ x) :: splitRun rest true false [])
    ∧ ((∀ dd, x.head? = some dd → isPySpace dd = false) →
        splitRun (x ++ ',' :: w :: rest) false true curr
          = (curr.reverse ++ ',' :: x) :: splitRun rest true false []) := by
  induction x with
  | nil =>
    intro curr _
    have hcm : isPySpace ',' = false := rfl
    constructor
    · simp [splitRun, hw, hcm]
    · intro _
      simp [splitRun, hw, hcm]
  | cons c x' ih =>
    intro curr hn
    have hn' := noCommaWs_tail c x' hn
    have hhead : noCommaWs (',' :: x') = true →
        ∀ dd, x'.head? = some dd → isPySpace dd = false := by
      intro hcn dd hdd
      cases x' with
      | nil => simp at hdd
      | cons e tail =>
        have hsp2 : isPySpace e = false := by
          simpa using noCommaWs_pair ',' e tail hcn
        simp at hdd
        subst hdd
        exact hsp2
    constructor
    · by_cases hc : c = ','
      · subst hc
        rw [List.cons_append,
            show splitRun (',' :: (x' ++ ',' :: w :: rest)) false false curr
              = splitRun (x' ++ ',' :: w :: rest) false true curr from by simp [splitRun]]
        rw [(ih curr hn').2 (hhead hn)]
      · rw [List.cons_append,
            show splitRun (c :: (x' ++ ',' :: w :: rest)) false false curr
              = splitRun (x' ++ ',' :: w :: rest) false false (c :: curr)
              from by simp [splitRun, hc]]
        rw [(ih (c :: curr) hn').1]
        simp
    · intro hh
      have hcws : isPySpace c = false := hh c rfl
      by_cases hc : c = ','
      · subst hc
        rw [List.cons_append,
            show splitRun (',' :: (x' ++ ',' :: w :: rest)) false true curr
              = splitRun (x' ++ ',' :: w :: rest) false true (',' :: curr)
              from by simp [splitRun, hcws]]
        rw [(ih (',' :: curr) hn').2 (hhead hn)]
        simp
      · rw [List.cons_append,
            show splitRun (c :: (x' ++ ',' :: w :: rest)) false true curr
              = splitRun (x' ++ ',' :: w :: rest) false false (c :: ',' :: curr)
              from by simp [splitRun, hcws, hc]]
        rw [(ih (c :: ',' :: curr) hn').1]
        simp

theorem head_append_comma (bl tail : List Char)
    (h : ∀ dd, bl.head? = some dd → isPySpace dd = false) :
    ∀ dd, (bl ++ ',' :: tail).head? = some dd → isPySpace dd = false := by
  intro dd hdd
  cases bl with
  | nil =>
    simp at hdd
    subst hdd
    rfl
  | cons e t =>
    simp at hdd
    subst hdd
    exact h e rfl

theorem splitRun_three (a b c : String)
    (ha : noCommaWs a.toList = true) (hb : noCommaWs b.toList = true)
    (hc : noCommaWs c.toList = true)
    (hbh : ∀ dd, b.toList.head? = some dd → isPySpace dd = false)
    (hch : ∀ dd, c.toList.head? = some dd → isPySpace dd = false) :
    splitRun (a.toList ++ ',' :: ' ' :: (b.toList ++ ',' :: ' ' :: c.toList)) false false []
      = [a.toList, b.toList, c.toList] := by
  have hsp : isPySpace ' ' = true := rfl
  rw [(splitRun_split ' ' hsp (b.toList ++ ',' :: ' ' :: c.toList) a.toList [] ha).1]
  rw [splitRun_skip _ (head_append_comma b.toList (' ' :: c.toList) hbh)]
  rw [(splitRun_split ' ' hsp c.toList b.toList [] hb).1]
  rw [splitRun_skip _ hch]
  rw [(splitRun_last c.toList []).1 hc]
  simp

theorem takeWhile_append_all (p : Char → Bool) : ∀ (l₁ l₂ : List Char),
    (∀ c ∈ l₁, p c = true) → (∀ d, l₂.head? = some d → p d = false) →
    (l₁ ++ l₂).takeWhile p = l₁ ∧ (l₁ ++ l₂).dropWhile p = l₂ := by
  intro l₁
  induction l₁ with
  | nil =>
    intro l₂ _ h2
    cases l₂ with
    | nil => simp
    | cons d t =>
      have := h2 d rfl
      simp [List.takeWhile, List.dropWhile, this]
  | cons ch t ih =>
    intro l₂ h1 h2
    have hch : p ch = true := h1 ch (by simp)
    have hr := ih l₂ (fun e he => h1 e (by simp [he])) h2
    simp [List.takeWhile, List.dropWhile, hch, hr.1, hr.2]

theorem reMatch_withArgs (P innerL : List Char)
    (hP : ∀ c ∈ P, (c != '(') = true)
    (hne : innerL ≠ []) (hnp : ')' ∉ innerL) :
    reMatch (P ++ '(' :: (innerL ++ [')'])) =
      match parseBase P with
      | some (p, m) => some (p, m, some innerL)
      | none => none := by
  have h := takeWhile_append_all (fun c => c != '(') P ('(' :: (innerL ++ [')'])) hP
    (by intro d hd; simp at hd; subst hd; rfl)
  have hg : (innerL ++ [')']).getLast? = some ')' := List.getLast?_concat innerL
  have hdl : (innerL ++ [')']).dropLast = innerL := List.dropLast_concat
  simp only [reMatch, h.1, h.2, hg, hdl]
  rw [if_pos ⟨trivial, hne, hnp⟩]

/-- C7: parsing a well-formed `Prefix.Sub.Member(a, b, c)` signature and
reconstructing `full_name()` yields `Prefix.Sub.Member`, with the three
argument fragments recovered exactly, for any fragments free of
comma-plus-whitespace and of `)`, not beginning with whitespace; and a
comma not followed by whitespace does not split (`Member(a,b)` keeps one
fragment). -/
theorem C7_roundtrip (a b c : String)
    (ha : noCommaWs a.toList = true) (hb : noCommaWs b.toList = true)
    (hc : noCommaWs c.toList = true)
    (hap : ')' ∉ a.toList) (hbp : ')' ∉ b.toList) (hcp : ')' ∉ c.toList)
    (hbh : ∀ dd, b.toList.head? = some dd → isPySpace dd = false)
    (hch : ∀ dd, c.toList.head? = some dd → isPySpace dd = false) :
    DotNetSignature.from_string ("Prefix.Sub.Member(" ++ a ++ ", " ++ b ++ ", " ++ c ++ ")")
      = .ok ⟨some "Prefix.Sub", "Member", some [a, b, c]⟩
    ∧ DotNetSignature.full_name ⟨some "Prefix.Sub", "Member", some [a, b, c]⟩
      = "Prefix.Sub.Member"
    ∧ DotNetSignature.from_string "Member(a,b)" = .ok ⟨none, "Member", some ["a,b"]⟩ := by
  refine ⟨?_, rfl, rfl⟩
  have e1 : ("Prefix.Sub.Member(" : String).toList = "Prefix.Sub.Member".toList ++ ['('] := rfl
  have e2 : (", " : String).toList = [',', ' '] := rfl
  have e3 : (")" : String).toList = [')'] := rfl
  have htl : ("Prefix.Sub.Member(" ++ a ++ ", " ++ b ++ ", " ++ c ++ ")").toList
      = "Prefix.Sub.Member".toList
        ++ '(' :: ((a.toList ++ ',' :: ' ' :: (b.toList ++ ',' :: ' ' :: c.toList)) ++ [')']) := by
    simp only [strToList_append, e1, e2, e3]
    simp [List.append_assoc]
  have hinner_ne : (a.toList ++ ',' :: ' ' :: (b.toList ++ ',' :: ' ' :: c.toList)) ≠ [] := by
    simp
  have hinner_np : ')' ∉ (a.toList ++ ',' :: ' ' :: (b.toList ++ ',' :: ' ' :: c.toList)) := by
    simp
    exact ⟨hap, hbp, hcp⟩
  have hmk : ∀ s : String, String.mk s.toList = s := fun _ => rfl
  have hsplit : splitArgs (String.mk (a.toList ++ ',' :: ' ' :: (b.toList ++ ',' :: ' ' :: c.toList)))
      = [a, b, c] := by
    unfold splitArgs
    rw [show (String.mk (a.toList ++ ',' :: ' ' :: (b.toList ++ ',' :: ' ' :: c.toList))).toList
          = a.toList ++ ',' :: ' ' :: (b.toList ++ ',' :: ' ' :: c.toList) from rfl]
    rw [splitRun_three a b c ha hb hc hbh hch]
    simp [hmk]
  have hpb : parseBase "Prefix.Sub.Member".toList = some (some "Prefix.Sub", "Member") := by
    decide
  unfold DotNetSignature.from_string
  rw [htl]
  rw [reMatch_withArgs "Prefix.Sub.Member".toList
        (a.toList ++ ',' :: ' ' :: (b.toList ++ ',' :: ' ' :: c.toList))
        (by decide) hinner_ne hinner_np]
  rw [hpb]
  show (Except.ok (DotNetSignature.mk (some "Prefix.Sub") "Member"
      (if (a.toList ++ ',' :: ' ' :: (b.toList ++ ',' :: ' ' :: c.toList)) = ([] : List Char)
       then none
       else some (splitArgs (String.mk (a.toList ++ ',' :: ' ' :: (b.toList ++ ',' :: ' ' :: c.toList)))))) :
      Except String DotNetSignature)
    = Except.ok (DotNetSignature.mk (some "Prefix.Sub") "Member" (some [a, b, c]))
  rw [if_neg hinner_ne, hsplit]

theorem C7_witness :
    DotNetSignature.from_string ("Prefix.Sub.Member(" ++ "a" ++ ", " ++ "b" ++ ", " ++ "c" ++ ")")
      = .ok ⟨some "Prefix.Sub", "Member", some ["a", "b", "c"]⟩
    ∧ DotNetSignature.full_name ⟨some "Prefix.Sub", "Member", some ["a", "b", "c"]⟩
      = "Prefix.Sub.Member"
    ∧ DotNetSignature.from_string "Member(a,b)" = .ok ⟨none, "Member", some ["a,b"]⟩ :=
  C7_roundtrip "a" "b" "c" (by decide) (by decide) (by decide)
    (by decide) (by decide) (by decide)
    (by intro dd hdd; simp at hdd; subst hdd; rfl)
    (by intro dd hdd; simp at hdd; subst hdd; rfl)
